import Mathlib

/-!
Verification development for the `e7020e_2021_marbla` examples
(`src/examples/rtic_bare6.rs`, `src/examples/rtic_hello.rs`).

The two Rust files are RTIC application examples.  The application bodies
(`init`, `idle`, `toggle`, the hello loop) are embedded directly from the
source.  The RTIC framework services they call — the `cyccnt` monotonic
clock, the deferred-scheduling queue, the priority-ceiling resource
manager and the init/idle lifecycle — are not part of this repository's
sources, so those services are modelled from the specification's
description of them, with each such definition marked
`Modelled from the spec:` in its doc comment.
-/

namespace RticModel

/-! ## Monotonic clock: `rtic::cyccnt::Instant` / `Duration`

Modelled from the spec: the `rtic::cyccnt` implementation itself is an
external framework crate.  `Instant` wraps the 32-bit DWT cycle counter;
addition is wrapping 32-bit addition and ordering compares the signed
(two's-complement) difference of the raw counter values. -/

/-- The modulus of the 32-bit cycle counter. -/
def cycMod : Nat := 2 ^ 32

/-- Half the modulus: values at or above this are negative as `i32`. -/
def cycHalf : Nat := 2 ^ 31

/-- Modelled from the spec: `Instant + Duration` is wrapping 32-bit
addition of the raw cycle counts (`a.wrapping_add d`). -/
def instAdd (a d : Nat) : Nat := (a + d) % cycMod

/-- Modelled from the spec: `a.wrapping_sub b` on 32-bit counter values. -/
def wrapSub (a b : Nat) : Nat := (a + cycMod - b % cycMod) % cycMod

/-- Two's-complement reinterpretation of a 32-bit value as an `i32`. -/
def toSigned (x : Nat) : Int :=
  if x % cycMod < cycHalf then (x % cycMod : Int) else (x % cycMod : Int) - (cycMod : Int)

/-- Modelled from the spec: `Instant::before` (the `PartialOrd` on
`Instant`) holds when the signed difference `a.wrapping_sub b`,
read as `i32`, is negative. -/
def instBefore (a b : Nat) : Bool := toSigned (wrapSub a b) < 0

/-! ## The `rtic_hello.rs` application

Embedded from `src/examples/rtic_hello.rs`: the app declares no
`Resources` struct and no tasks; `init` loops `for a in 0..11`,
printing one greeting per index. -/

/-- The greeting printed by `rtic_hello`'s init for loop index `a`. -/
def helloMessage (a : Nat) : String :=
  s!"RTIC Says Hello, to all students!! {a}"

/-- The observable configuration and init-phase output of an RTIC app in
this model: the lines printed during `init`, the schedule calls `init`
performs, and the resources the app declares. -/
structure AppRun where
  printed : List String
  initScheduleCalls : List Nat
  resourcesDeclared : List String
  deriving Repr, DecidableEq

/-- Embedded from `src/examples/rtic_hello.rs` lines 8–16: the app has
no resources and no tasks; `init` runs `for a in 0..11` printing a
greeting each iteration and performs no scheduling. -/
def helloRun : AppRun :=
  { printed := (List.range 11).foldl (fun acc a => acc ++ [helloMessage a]) []
    initScheduleCalls := []
    resourcesDeclared := [] }

/-! ## Scheduler Core: activation queue

Modelled from the spec: the RTIC scheduling queue is framework code.  A
pending activation pairs a task identifier with its static priority and
due instant; `schedule` fails with `AlreadyScheduled` when the task
already has a pending activation (single-outstanding-activation-per-task
policy) and otherwise appends the new activation. -/

/-- A pending scheduled activation: task identifier, the task's static
priority, and the due instant. -/
structure SAct where
  task : Nat
  prio : Nat
  due : Nat
  deriving Repr, DecidableEq

/-- The scheduling error surfaced to the caller. -/
inductive SchedError where
  | alreadyScheduled
  deriving Repr, DecidableEq

/-- Whether task `t` already has a pending activation in queue `q`. -/
def hasPending (q : List SAct) (t : Nat) : Bool := q.any fun a => a.task = t

/-- Modelled from the spec: `schedule(task, at)` returns
`Err(AlreadyScheduled)` and leaves the queue untouched when the task has
a pending activation; otherwise it enqueues the new activation. -/
def scheduleCall (q : List SAct) (t p d : Nat) :
    Except SchedError Unit × List SAct :=
  if hasPending q t then (Except.error SchedError.alreadyScheduled, q)
  else (Except.ok (), q ++ [⟨t, p, d⟩])

/-- Modelled from the spec: strict dispatch precedence — earlier due
instant first, and among equal due instants the higher static priority
first. -/
def actBefore (a b : SAct) : Bool :=
  decide (a.due < b.due) || (decide (a.due = b.due) && decide (b.prio < a.prio))

/-- Non-strict dispatch precedence: `a` may be dispatched no later than
`b` — ascending due instant, priority (higher first) as tie-break. -/
def actLE (a b : SAct) : Prop :=
  a.due < b.due ∨ (a.due = b.due ∧ b.prio ≤ a.prio)

/-- Modelled from the spec: the scheduler's selection of the next
activation to dispatch — the minimum of the queue under `actBefore`,
FIFO among full ties — returned together with the remaining queue. -/
def selectMin (x : SAct) : List SAct → SAct × List SAct
  | [] => (x, [])
  | y :: ys =>
    if actBefore y x then
      let p := selectMin y ys
      (p.1, x :: p.2)
    else
      let p := selectMin x ys
      (p.1, y :: p.2)

/-- Modelled from the spec: the order in which the scheduler dispatches
a queue of pending activations — repeatedly remove and run the
earliest-due (priority tie-broken) activation. -/
def dispatchOrder : List SAct → List SAct
  | [] => []
  | x :: xs => (selectMin x xs).1 :: dispatchOrder (selectMin x xs).2
termination_by l => l.length
decreasing_by
  have key : ∀ (a : SAct) (l : List SAct),
      (selectMin a l).2.length = l.length := by
    intro a l
    induction l generalizing a with
    | nil => rfl
    | cons b bs ih =>
      simp only [selectMin]
      split <;> simp [ih]
  simp [key]

/-! ## The `rtic_bare6.rs` application

The `init` and `toggle` bodies are embedded from
`src/examples/rtic_bare6.rs`.  The RCC/GPIOC clock-output wiring
(`clock_out`) configures peripherals outside the app's declared
`Resources` and is out of the claims' scope.  The dispatch glue (the
framework consuming a due activation and running the task body) is
modelled from the spec. -/

/-- `const OFFSET: u32 = 8_000_000;` — `src/examples/rtic_bare6.rs`
line 21. -/
def OFFSET : Nat := 8000000

/-- One write to GPIOA's BSRR register: `bs i` is pin `i`'s set bit,
`br i` its reset bit. -/
structure BsrrWrite where
  bs : Nat → Bool
  br : Nat → Bool

/-- BSRR semantics: a set bit drives the pin high (set takes precedence
over reset), a reset bit drives it low, untouched pins keep state. -/
def applyBsrr (odr : Nat → Bool) (w : BsrrWrite) : Nat → Bool :=
  fun i => if w.bs i then true else if w.br i then false else odr i

/-- The write `|w| w.bs5().set_bit()`: only pin 5's set bit. -/
def bs5Write : BsrrWrite := ⟨fun i => decide (i = 5), fun _ => false⟩

/-- The write `|w| w.br5().set_bit()`: only pin 5's reset bit. -/
def br5Write : BsrrWrite := ⟨fun _ => false, fun i => decide (i = 5)⟩

/-- The observable state of the `rtic_bare6` application: whether the
DWT cycle counter has been started, whether `Instant::now()` was ever
queried before the counter was started, the task-local `TOGGLE` flag,
GPIOA's pin-5 mode bits and output-data state, the log of BSRR writes,
the pending due instants of scheduled `toggle` activations, and whether
a `schedule(..).unwrap()` ever failed. -/
structure Bare6State where
  counterStarted : Bool
  preStartNowQueried : Bool
  toggleFlag : Bool
  gpioaModer5 : Nat
  gpioaOdr : Nat → Bool
  bsrrLog : List BsrrWrite
  pending : List Nat
  schedFailed : Bool
  printLog : List Nat

/-- Power-on reset state, before `init` runs: counter stopped, `TOGGLE`
initialised `false` (line 83), GPIOA in reset, nothing scheduled. -/
def bare6Reset : Bare6State :=
  { counterStarted := false
    preStartNowQueried := false
    toggleFlag := false
    gpioaModer5 := 0
    gpioaOdr := fun _ => false
    bsrrLog := []
    pending := []
    schedFailed := false
    printLog := [] }

/-- Embedded from `src/examples/rtic_bare6.rs` lines 30–71 (`init`):
starts the cycle counter (`DWT.enable_cycle_counter`), takes `now` from
`cx.start` (it does NOT call `Instant::now`), schedules `toggle` at
`now + OFFSET.cycles()`, and configures PA5 as output
(`moder5().bits(1)`). -/
def initBare6 (start : Nat) : Bare6State :=
  let s0 := bare6Reset
  let s1 := { s0 with counterStarted := true }
  let now := start
  let s2 := { s1 with
    pending := if s1.pending.isEmpty then s1.pending ++ [instAdd now OFFSET]
      else s1.pending
    schedFailed := s1.schedFailed || !s1.pending.isEmpty }
  { s2 with gpioaModer5 := 1 }

/-- Embedded from `src/examples/rtic_bare6.rs` lines 82–94 (`toggle`):
prints via `Instant::now()` (a clock query), writes BSRR `bs5` when
`TOGGLE` is set and `br5` otherwise, flips `TOGGLE`, and reschedules
itself at `cx.scheduled + OFFSET.cycles()` — from the scheduled
instant, not the current time `nowVal`. -/
def toggleBody (scheduled nowVal : Nat) (s : Bare6State) : Bare6State :=
  let s1 := { s with
    preStartNowQueried := s.preStartNowQueried || !s.counterStarted
    printLog := s.printLog ++ [nowVal] }
  let w := if s1.toggleFlag then bs5Write else br5Write
  let s2 := { s1 with
    gpioaOdr := applyBsrr s1.gpioaOdr w
    bsrrLog := s1.bsrrLog ++ [w] }
  let s3 := { s2 with toggleFlag := !s2.toggleFlag }
  { s3 with
    pending := if s3.pending.isEmpty then s3.pending ++ [instAdd scheduled OFFSET]
      else s3.pending
    schedFailed := s3.schedFailed || !s3.pending.isEmpty }

/-- Modelled from the spec: select the earliest-due pending instant
(wraparound `before` comparison), returning it and the rest. -/
def selectEarliest (x : Nat) : List Nat → Nat × List Nat
  | [] => (x, [])
  | y :: ys =>
    if instBefore y x then
      let p := selectEarliest y ys
      (p.1, x :: p.2)
    else
      let p := selectEarliest x ys
      (p.1, y :: p.2)

/-- Modelled from the spec: one scheduler dispatch — consume the
earliest-due pending `toggle` activation and run the task body with
`cx.scheduled` bound to that instant; `nowVal` is the hardware counter
value at dispatch time. -/
def dispatchNext (nowVal : Nat) (s : Bare6State) : Bare6State :=
  match s.pending with
  | [] => s
  | x :: xs =>
    let p := selectEarliest x xs
    toggleBody p.1 nowVal { s with pending := p.2 }

/-! ## Init/Idle lifecycle

Modelled from the spec: the lifecycle state machine of §4.2 — states
`Init`, `Idle`, `Dispatching(task)`; `Init → Idle` once the late
resources are produced, `Idle → Dispatching(t) → Idle` for task
dispatches.  No transition targets `Init`. -/

/-- The lifecycle states of the scheduler. -/
inductive LifeState where
  | init
  | idle
  | dispatching (t : Nat)
  deriving Repr, DecidableEq

/-- Modelled from the spec: the lifecycle transitions.  `initDone`
produces the late resources and enters `Idle`; a dispatch leaves
`Idle`; a completing task body returns to `Idle`. -/
inductive lifeStep : LifeState → LifeState → Prop where
  | initDone : lifeStep LifeState.init LifeState.idle
  | dispatch (t : Nat) : lifeStep LifeState.idle (LifeState.dispatching t)
  | complete (t : Nat) : lifeStep (LifeState.dispatching t) LifeState.idle

/-! ## Resource Manager: exclusive write capability

Modelled from the spec: each Resource (here, the GPIOA handle) has its
write capability granted to at most one context at a time; acquisition
is granted only when no context holds the resource, and every write is
mediated — it requires the writer to currently hold the capability. -/

/-- An execution context: the init/idle context or a task. -/
inductive Ctx where
  | initIdleCtx
  | taskCtx (t : Nat)
  deriving Repr, DecidableEq

/-- Resource-manager state: which context holds which resource's write
capability (resources named by `Nat`). -/
structure RmState where
  holds : List (Ctx × Nat)
  deriving Repr, DecidableEq

/-- Modelled from the spec: resource-manager transitions.  `acquire`
grants the capability only if the resource is free; `release` returns
it; `write` is a mediated access — permitted only while holding. -/
inductive rmStep : RmState → RmState → Prop where
  | acquire (s : RmState) (c : Ctx) (r : Nat)
      (hfree : ∀ c', (c', r) ∉ s.holds) :
      rmStep s ⟨(c, r) :: s.holds⟩
  | release (s : RmState) (c : Ctx) (r : Nat)
      (hheld : (c, r) ∈ s.holds) :
      rmStep s ⟨s.holds.erase (c, r)⟩
  | write (s : RmState) (c : Ctx) (r : Nat)
      (hheld : (c, r) ∈ s.holds) :
      rmStep s s

/-- A resource-manager state reachable from the empty initial state. -/
def rmReach (s : RmState) : Prop :=
  Relation.ReflTransGen rmStep ⟨[]⟩ s

/-! ## Priority-ceiling dispatch

Modelled from the spec: §4.3's ceiling protocol for the single shared
resource (GPIOA), parameterized by the static priority assignment
`prio` and the resource's configured ceiling.  While the resource is
held the dispatch threshold is raised to the ceiling; a task may be
dispatched only when its priority exceeds the threshold. -/

/-- Priority-ceiling scheduler state: the stack of dispatched,
uncompleted tasks (head is running, the rest are preempted) and the
task currently holding the resource, if any. -/
structure PcState where
  stack : List Nat
  holder : Option Nat
  deriving Repr, DecidableEq

/-- The highest static priority on the dispatch stack. -/
def stackPrio (prio : Nat → Nat) : List Nat → Nat
  | [] => 0
  | t :: ts => max (prio t) (stackPrio prio ts)

/-- Modelled from the spec: the current dispatch threshold (system
ceiling) — the dispatched tasks' priorities, raised to the resource's
ceiling while the resource is held. -/
def threshold (prio : Nat → Nat) (ceil : Nat) (s : PcState) : Nat :=
  max (stackPrio prio s.stack) (if s.holder.isSome then ceil else 0)

/-- Modelled from the spec: task `t` may be dispatched in `s` exactly
when its static priority exceeds the current threshold. -/
def canDispatch (prio : Nat → Nat) (ceil : Nat) (s : PcState) (t : Nat) :
    Prop :=
  threshold prio ceil s < prio t

/-- Modelled from the spec: priority-ceiling scheduler transitions.
Locking requires the running task to be a declared accessor of the
resource (its priority is at most the configured ceiling, the maximum
accessor priority); a task body completes only after releasing. -/
inductive pcStep (prio : Nat → Nat) (ceil : Nat) : PcState → PcState → Prop where
  | dispatch (s : PcState) (t : Nat) :
      canDispatch prio ceil s t →
      pcStep prio ceil s ⟨t :: s.stack, s.holder⟩
  | lock (s : PcState) (t : Nat) (ts : List Nat) :
      s.stack = t :: ts → s.holder = none → prio t ≤ ceil →
      pcStep prio ceil s ⟨s.stack, some t⟩
  | unlock (s : PcState) (t : Nat) (ts : List Nat) :
      s.stack = t :: ts → s.holder = some t →
      pcStep prio ceil s ⟨s.stack, none⟩
  | complete (s : PcState) (t : Nat) (ts : List Nat) :
      s.stack = t :: ts → s.holder ≠ some t →
      pcStep prio ceil s ⟨ts, s.holder⟩

/-- A priority-ceiling state reachable from the initial empty state. -/
def pcReach (prio : Nat → Nat) (ceil : Nat) (s : PcState) : Prop :=
  Relation.ReflTransGen (pcStep prio ceil) ⟨[], none⟩ s

end RticModel

namespace RticModel

theorem actLE_refl (a : SAct) : actLE a a := Or.inr ⟨rfl, le_refl _⟩

theorem actLE_trans {a b c : SAct} (h1 : actLE a b) (h2 : actLE b c) :
    actLE a c := by
  unfold actLE at *
  rcases h1 with h1 | ⟨h1, h1'⟩ <;> rcases h2 with h2 | ⟨h2, h2'⟩ <;>
    first
      | exact Or.inl (by omega)
      | exact Or.inr ⟨by omega, by omega⟩

theorem actLE_of_actBefore {a b : SAct} (h : actBefore a b = true) :
    actLE a b := by
  unfold actBefore at h
  unfold actLE
  simp only [Bool.or_eq_true, Bool.and_eq_true, decide_eq_true_eq] at h
  rcases h with h | ⟨h, h'⟩
  · exact Or.inl h
  · exact Or.inr ⟨h, Nat.le_of_lt h'⟩

theorem actLE_of_not_actBefore {a b : SAct} (h : ¬actBefore b a = true) :
    actLE a b := by
  unfold actBefore at h
  unfold actLE
  simp only [Bool.or_eq_true, Bool.and_eq_true, decide_eq_true_eq] at h
  push_neg at h
  by_cases hd : a.due < b.due
  · exact Or.inl hd
  · exact Or.inr ⟨by omega, h.2 (by omega)⟩

theorem selectMin_perm (x : SAct) (l : List SAct) :
    List.Perm ((selectMin x l).1 :: (selectMin x l).2) (x :: l) := by
  induction l generalizing x with
  | nil => exact List.Perm.refl _
  | cons y ys ih =>
    simp only [selectMin]
    split
    · exact (List.Perm.swap x (selectMin y ys).1 (selectMin y ys).2).trans
        ((ih y).cons x)
    · exact (List.Perm.swap y (selectMin x ys).1 (selectMin x ys).2).trans
        (((ih x).cons y).trans (List.Perm.swap x y ys))

theorem selectMin_min (x : SAct) (l : List SAct) :
    ∀ z ∈ x :: l, actLE (selectMin x l).1 z := by
  induction l generalizing x with
  | nil =>
    intro z hz
    simp only [selectMin, List.mem_singleton] at hz ⊢
    rw [hz]
    exact actLE_refl x
  | cons y ys ih =>
    intro z hz
    simp only [selectMin]
    rcases List.mem_cons.1 hz with hzx | hz'
    · rw [hzx]
      split
      case isTrue h =>
        exact actLE_trans (ih y y (List.mem_cons_self y ys))
          (actLE_of_actBefore h)
      case isFalse h =>
        exact ih x x (List.mem_cons_self x ys)
    · rcases List.mem_cons.1 hz' with hzy | hzys
      · rw [hzy]
        split
        case isTrue h => exact ih y y (List.mem_cons_self y ys)
        case isFalse h =>
          exact actLE_trans (ih x x (List.mem_cons_self x ys))
            (actLE_of_not_actBefore h)
      · split
        case isTrue h => exact ih y z (List.mem_cons.2 (Or.inr hzys))
        case isFalse h => exact ih x z (List.mem_cons.2 (Or.inr hzys))

theorem dispatchOrder_perm (l : List SAct) :
    List.Perm (dispatchOrder l) l := by
  induction l using dispatchOrder.induct with
  | case1 => simp [dispatchOrder]
  | case2 y ys ih =>
    rw [dispatchOrder]
    exact (ih.cons (selectMin y ys).1).trans (selectMin_perm y ys)

theorem dispatchOrder_sorted (l : List SAct) :
    (dispatchOrder l).Pairwise actLE := by
  induction l using dispatchOrder.induct with
  | case1 => simp [dispatchOrder]
  | case2 y ys ih =>
    rw [dispatchOrder]
    refine List.pairwise_cons.2 ⟨fun z hz => ?_, ih⟩
    have hz2 : z ∈ (selectMin y ys).2 := (dispatchOrder_perm _).mem_iff.1 hz
    have hzm : z ∈ y :: ys :=
      (selectMin_perm y ys).mem_iff.1 (List.mem_cons.2 (Or.inr hz2))
    exact selectMin_min y ys z hzm


/-- A 32-bit value is negative as `i32` exactly when its low 32 bits are
at least `2^31`. -/
theorem toSigned_neg_iff (x : Nat) : toSigned x < 0 ↔ 2 ^ 31 ≤ x % 2 ^ 32 := by
  have h32 : (2 : Nat) ^ 32 = 4294967296 := by norm_num
  have h31 : (2 : Nat) ^ 31 = 2147483648 := by norm_num
  simp only [toSigned, cycMod, cycHalf, h32, h31]
  split <;> push_cast <;> omega

/-- C3: wraparound arithmetic of the cycle-counter clock.  `Instant +
Duration` is addition modulo `2^32`; `before` compares the signed
32-bit difference, so the maximal counter value `2^32 - 1` is `before`
the wrapped instant `0`, and `(2^32 - 1) + 1 = 0 (mod 2^32)`.  For
in-range values, `before` holds exactly when the wrapped difference is
at least `2^31`, i.e. negative as `i32` — not a raw-magnitude compare. -/
theorem instant_wraparound :
    (∀ a d : Nat, instAdd a d = (a + d) % 2 ^ 32)
    ∧ instAdd (2 ^ 32 - 1) 1 = 0
    ∧ instBefore (2 ^ 32 - 1) 0 = true
    ∧ (∀ a b : Nat, a < 2 ^ 32 → b < 2 ^ 32 →
        (instBefore a b = true ↔ 2 ^ 31 ≤ (a + 2 ^ 32 - b) % 2 ^ 32)) := by
  refine ⟨fun a d => rfl, by decide, by decide, fun a b ha hb => ?_⟩
  have hb' : b % cycMod = b := Nat.mod_eq_of_lt hb
  rw [show instBefore a b = decide (toSigned (wrapSub a b) < 0) from rfl,
    decide_eq_true_eq, toSigned_neg_iff]
  simp only [wrapSub, cycMod, hb']
  have h32 : (2 : Nat) ^ 32 = 4294967296 := by norm_num
  have h31 : (2 : Nat) ^ 31 = 2147483648 := by norm_num
  rw [h32, h31]
  omega

/-- Witness for `instant_wraparound`: its characterization instantiated
at the wraparound point `a = 2^32 - 1`, `b = 0`. -/
theorem instant_wraparound_witness :
    instBefore (2 ^ 32 - 1) 0 = true ↔ 2 ^ 31 ≤ (2 ^ 32 - 1 + 2 ^ 32 - 0) % 2 ^ 32 :=
  instant_wraparound.2.2.2 (2 ^ 32 - 1) 0 (by norm_num) (by norm_num)

/-- C2: `schedule(t, at)` returns `AlreadyScheduled` exactly when `t`
already has a pending activation; on that error the queue is unchanged
(the original activation stays armed), and on success the new
activation is appended without disturbing the existing ones. -/
theorem schedule_conflict_spec (q : List SAct) (t p d : Nat) :
    ((scheduleCall q t p d).1 = Except.error SchedError.alreadyScheduled
      ↔ hasPending q t = true)
    ∧ (hasPending q t = true → (scheduleCall q t p d).2 = q)
    ∧ (hasPending q t = false →
        (scheduleCall q t p d).2 = q ++ [⟨t, p, d⟩]) := by
  unfold scheduleCall
  cases h : hasPending q t <;> simp [h]

/-- Witness for `schedule_conflict_spec`: rescheduling task 1 while its
activation is still pending leaves the queue unchanged. -/
theorem schedule_conflict_spec_witness :
    (scheduleCall [⟨1, 1, 10⟩] 1 1 20).2 = [⟨1, 1, 10⟩] :=
  (schedule_conflict_spec [⟨1, 1, 10⟩] 1 1 20).2.1 (by decide)

/-- C4: for any queue of pending activations of pairwise-distinct
tasks, the scheduler's dispatch order is a permutation of the queue
sorted by ascending due instant with static priority (higher first) as
the tie-break among equal due instants. -/
theorem dispatch_order_ascending_due (q : List SAct)
    (_hdistinct : q.Pairwise fun a b => a.task ≠ b.task) :
    List.Perm (dispatchOrder q) q ∧ (dispatchOrder q).Pairwise actLE :=
  ⟨dispatchOrder_perm q, dispatchOrder_sorted q⟩

/-- Witness for `dispatch_order_ascending_due`: three distinct tasks,
two sharing a due instant. -/
theorem dispatch_order_ascending_due_witness :
    List.Perm (dispatchOrder [⟨0, 1, 50⟩, ⟨1, 2, 10⟩, ⟨2, 3, 50⟩])
        [⟨0, 1, 50⟩, ⟨1, 2, 10⟩, ⟨2, 3, 50⟩]
    ∧ (dispatchOrder [⟨0, 1, 50⟩, ⟨1, 2, 10⟩, ⟨2, 3, 50⟩]).Pairwise actLE :=
  dispatch_order_ascending_due [⟨0, 1, 50⟩, ⟨1, 2, 10⟩, ⟨2, 3, 50⟩]
    (by decide)

theorem instAdd_instAdd (a b c : Nat) :
    instAdd (instAdd a b) c = (a + (b + c)) % 2 ^ 32 := by
  unfold instAdd cycMod
  rw [Nat.mod_add_mod, Nat.add_assoc]

theorem dispatchNext_singleton (n d : Nat) (s : Bare6State)
    (h : s.pending = [d]) :
    dispatchNext n s = toggleBody d n { s with pending := [] } := by
  unfold dispatchNext
  rw [h]
  rfl

/-- C1: end-to-end periodic toggle.  From reset, `init` leaves the
task-local `TOGGLE` flag false and one activation due at
`start + 8_000_000`; after the first dispatch the flag is true and an
activation due at `start + 16_000_000` is pending; after the second
the flag is false again and an activation due at `start + 24_000_000`
is pending — each reschedule computed from the scheduled instant
(the dispatch-time counter values `n1`, `n2` are arbitrary and do not
enter the due times), with no schedule call ever failing. -/
theorem toggle_end_to_end (start n1 n2 : Nat) :
    (initBare6 start).toggleFlag = false
    ∧ (initBare6 start).pending = [(start + 8000000) % 2 ^ 32]
    ∧ (dispatchNext n1 (initBare6 start)).toggleFlag = true
    ∧ (dispatchNext n1 (initBare6 start)).pending
        = [(start + 16000000) % 2 ^ 32]
    ∧ (dispatchNext n2 (dispatchNext n1 (initBare6 start))).toggleFlag
        = false
    ∧ (dispatchNext n2 (dispatchNext n1 (initBare6 start))).pending
        = [(start + 24000000) % 2 ^ 32]
    ∧ (dispatchNext n2 (dispatchNext n1 (initBare6 start))).schedFailed
        = false := by
  have e1 : (initBare6 start).pending = [(start + 8000000) % 2 ^ 32] := rfl
  have d1 : dispatchNext n1 (initBare6 start)
      = toggleBody ((start + 8000000) % 2 ^ 32) n1
          { initBare6 start with pending := [] } :=
    dispatchNext_singleton n1 _ _ e1
  have e2 : (dispatchNext n1 (initBare6 start)).pending
      = [(start + 16000000) % 2 ^ 32] := by
    rw [d1]
    show [instAdd (instAdd start OFFSET) OFFSET] = _
    rw [instAdd_instAdd]
    norm_num [OFFSET]
  have d2 : dispatchNext n2 (dispatchNext n1 (initBare6 start))
      = toggleBody ((start + 16000000) % 2 ^ 32) n2
          { dispatchNext n1 (initBare6 start) with pending := [] } :=
    dispatchNext_singleton n2 _ _ e2
  have e3 : (dispatchNext n2 (dispatchNext n1 (initBare6 start))).pending
      = [(start + 24000000) % 2 ^ 32] := by
    rw [d2]
    show [instAdd (instAdd start 16000000) OFFSET] = _
    rw [instAdd_instAdd]
    norm_num [OFFSET]
  refine ⟨rfl, e1, ?_, e2, ?_, e3, ?_⟩
  · rw [d1]; rfl
  · rw [d2, d1]; rfl
  · rw [d2, d1]; rfl

theorem toggleBody_clock_fields (sch n : Nat) (s : Bare6State) :
    (toggleBody sch n s).counterStarted = s.counterStarted
    ∧ (toggleBody sch n s).preStartNowQueried
        = (s.preStartNowQueried || !s.counterStarted) :=
  ⟨rfl, rfl⟩

theorem dispatchNext_clock_invariant (n : Nat) (s : Bare6State)
    (h1 : s.counterStarted = true) (h2 : s.preStartNowQueried = false) :
    (dispatchNext n s).counterStarted = true
    ∧ (dispatchNext n s).preStartNowQueried = false := by
  unfold dispatchNext
  cases hp : s.pending with
  | nil => exact ⟨h1, h2⟩
  | cons x xs =>
    refine ⟨?_, ?_⟩ <;> simp [toggleBody, h1, h2]

/-- C7: `Instant::now()` is never observed before the cycle counter is
started.  `init` starts the counter and computes the first due time
from the externally supplied `cx.start` — the whole run (init followed
by any sequence of dispatches, at arbitrary counter values `nows`)
never queries the clock pre-start. -/
theorem now_never_queried_pre_start (start : Nat) (nows : List Nat) :
    (nows.foldl (fun s n => dispatchNext n s)
        (initBare6 start)).preStartNowQueried = false
    ∧ (initBare6 start).pending = [(start + 8000000) % 2 ^ 32] := by
  have key : ∀ (ns : List Nat) (s : Bare6State),
      s.counterStarted = true → s.preStartNowQueried = false →
      (ns.foldl (fun s n => dispatchNext n s) s).preStartNowQueried
        = false := by
    intro ns
    induction ns with
    | nil => intro s _ h2; exact h2
    | cons n ns ih =>
      intro s h1 h2
      simp only [List.foldl_cons]
      obtain ⟨h1', h2'⟩ := dispatchNext_clock_invariant n s h1 h2
      exact ih _ h1' h2'
  exact ⟨key nows (initBare6 start) rfl rfl, rfl⟩

/-- C9: frame effect of one `toggle` dispatch on the shared resources.
Exactly one BSRR write is issued — the pin-5 set bit when `TOGGLE` is
true at entry, the pin-5 reset bit when false — pin 5's output becomes
the entry value of the flag, every other pin's output is untouched, and
GPIOA's mode configuration is unchanged. -/
theorem toggle_dispatch_frame (sch n : Nat) (s : Bare6State) :
    (toggleBody sch n s).bsrrLog
        = s.bsrrLog ++ [if s.toggleFlag then bs5Write else br5Write]
    ∧ (toggleBody sch n s).gpioaOdr
        = Function.update s.gpioaOdr 5 s.toggleFlag
    ∧ (toggleBody sch n s).gpioaModer5 = s.gpioaModer5 := by
  refine ⟨rfl, ?_, rfl⟩
  funext i
  by_cases hi : i = 5
  · subst hi
    cases hflag : s.toggleFlag <;>
      simp [toggleBody, applyBsrr, bs5Write, br5Write, hflag]
  · cases hflag : s.toggleFlag <;>
      simp [toggleBody, applyBsrr, bs5Write, br5Write, hflag, hi,
        Function.update_apply]

theorem lifeStep_ne_init (s s' : LifeState) (h : lifeStep s s') :
    s' ≠ LifeState.init := by
  cases h <;> intro hc <;> exact LifeState.noConfusion hc

/-- C6: init-once lifecycle.  From `Init` the only transition produces
the late resources and enters `Idle`; no transition ever re-enters
`Init`; a dispatch happens only from `Idle` (hence only after init
completed); and no state reachable from `Idle` is `Init` again. -/
theorem init_lifecycle_once :
    (∀ s', lifeStep LifeState.init s' → s' = LifeState.idle)
    ∧ (∀ s s', lifeStep s s' → s' ≠ LifeState.init)
    ∧ (∀ s t, lifeStep s (LifeState.dispatching t) → s = LifeState.idle)
    ∧ (∀ s, Relation.ReflTransGen lifeStep LifeState.idle s →
        s ≠ LifeState.init) := by
  refine ⟨?_, ?_, ?_, ?_⟩
  · intro s' h
    cases h
    rfl
  · exact lifeStep_ne_init
  · intro s t h
    cases h
    rfl
  · intro s h
    induction h with
    | refl => intro hc; exact LifeState.noConfusion hc
    | tail hab hbc ih => exact lifeStep_ne_init _ _ hbc

/-- Witness for `init_lifecycle_once`: the `initDone` transition leads
to `Idle`, which is not `Init`. -/
theorem init_lifecycle_once_witness : LifeState.idle ≠ LifeState.init :=
  init_lifecycle_once.2.1 LifeState.init LifeState.idle lifeStep.initDone

theorem rmStep_pairwise {s s' : RmState} (h : rmStep s s')
    (hp : s.holds.Pairwise fun p q => p.2 ≠ q.2) :
    s'.holds.Pairwise fun p q => p.2 ≠ q.2 := by
  cases h with
  | acquire c r hfree =>
    refine List.pairwise_cons.2 ⟨fun q hq => ?_, hp⟩
    intro hcq
    have hqe : (q.1, r) = q := Prod.ext rfl hcq
    exact hfree q.1 (hqe ▸ hq)
  | release c r hheld =>
    exact List.Pairwise.sublist (List.erase_sublist _ _) hp
  | write c r hheld => exact hp

theorem rmReach_pairwise (s : RmState) (h : rmReach s) :
    s.holds.Pairwise fun p q => p.2 ≠ q.2 := by
  induction h with
  | refl => exact List.Pairwise.nil
  | tail hab hbc ih => exact rmStep_pairwise hbc ih

/-- C8: exclusive write access.  In every reachable resource-manager
state no two held entries name the same resource — each resource's
write capability is held by at most one context — and all access is
mediated by the manager (`rmStep.write` requires holding). -/
theorem resource_write_exclusive (s : RmState) (h : rmReach s) :
    (s.holds.Pairwise fun p q => p.2 ≠ q.2)
    ∧ ∀ (c c' : Ctx) (r : Nat),
        (c, r) ∈ s.holds → (c', r) ∈ s.holds → c = c' := by
  have hp := rmReach_pairwise s h
  refine ⟨hp, fun c c' r hc hc' => ?_⟩
  by_contra hne
  have hne' : (c, r) ≠ (c', r) := fun he => hne (congrArg Prod.fst he)
  have hsym : Symmetric fun p q : Ctx × Nat => p.2 ≠ q.2 :=
    fun _ _ hab => hab.symm
  have hRR := List.Pairwise.forall hsym hp (a := (c, r)) hc (b := (c', r))
    hc' hne'
  exact absurd rfl hRR

/-- Witness for `resource_write_exclusive`: the state after the
init/idle context acquires resource 5 from the empty initial state. -/
theorem resource_write_exclusive_witness :
    ((⟨[(Ctx.initIdleCtx, 5)]⟩ : RmState).holds.Pairwise
      fun p q => p.2 ≠ q.2)
    ∧ Ctx.initIdleCtx = Ctx.initIdleCtx := by
  have hr : rmReach ⟨[(Ctx.initIdleCtx, 5)]⟩ :=
    Relation.ReflTransGen.single
      (rmStep.acquire ⟨[]⟩ Ctx.initIdleCtx 5 (fun c' => by simp))
  exact ⟨(resource_write_exclusive _ hr).1,
    (resource_write_exclusive _ hr).2 _ _ 5 (by simp) (by simp)⟩

theorem pcReach_holder_le (prio : Nat → Nat) (ceil : Nat) (s : PcState)
    (h : pcReach prio ceil s) :
    ∀ t, s.holder = some t → prio t ≤ ceil := by
  induction h with
  | refl => intro t ht; exact Option.noConfusion ht
  | tail hab hbc ih =>
    intro t ht
    cases hbc with
    | dispatch u hcan => exact ih t ht
    | lock u ts hst hnone hle =>
      obtain rfl := Option.some.inj ht
      exact hle
    | unlock u ts hst hsome => exact Option.noConfusion ht
    | complete u ts hst hne => exact ih t ht

/-- C5: priority-ceiling deferral.  In any reachable scheduler state in
which task `h` holds the resource configured with ceiling `ceil`, no
task whose priority is at most `ceil` can be dispatched (it is deferred
until the holder completes), while — with the holder running — any task
whose priority strictly exceeds `ceil` can be dispatched immediately. -/
theorem priority_ceiling_dispatch (prio : Nat → Nat) (ceil : Nat)
    (s : PcState) (h : Nat) (hreach : pcReach prio ceil s)
    (hhold : s.holder = some h) :
    (∀ t, prio t ≤ ceil → ¬canDispatch prio ceil s t)
    ∧ (∀ t, s.stack = [h] → ceil < prio t → canDispatch prio ceil s t) := by
  have hle := pcReach_holder_le prio ceil s hreach h hhold
  constructor
  · intro t hpt hcan
    unfold canDispatch threshold at hcan
    rw [hhold] at hcan
    simp only [Option.isSome_some, if_true] at hcan
    have hc : ceil ≤ max (stackPrio prio s.stack) ceil := le_max_right _ _
    exact absurd ((hpt.trans hc).trans_lt hcan) (lt_irrefl _)
  · intro t hstack hgt
    unfold canDispatch threshold
    rw [hhold, hstack]
    simp only [Option.isSome_some, if_true, stackPrio]
    have hm : max (max (prio h) 0) ceil ≤ ceil := by
      refine max_le (le_trans ?_ hle) (le_refl _)
      exact max_le (le_refl _) (Nat.zero_le _)
    exact lt_of_le_of_lt hm hgt

/-- Witness for `priority_ceiling_dispatch`: with identity priorities
and ceiling 1, after dispatching task 1 and locking the resource, a
priority-1 task cannot be dispatched while a priority-2 task can. -/
theorem priority_ceiling_dispatch_witness :
    ¬canDispatch (fun t => t) 1 ⟨[1], some 1⟩ 1
    ∧ canDispatch (fun t => t) 1 ⟨[1], some 1⟩ 2 := by
  have h1 : pcStep (fun t => t) 1 ⟨[], none⟩ ⟨[1], none⟩ :=
    pcStep.dispatch ⟨[], none⟩ 1
      (by simp [canDispatch, threshold, stackPrio])
  have h2 : pcStep (fun t => t) 1 ⟨[1], none⟩ ⟨[1], some 1⟩ :=
    pcStep.lock ⟨[1], none⟩ 1 [] rfl rfl (Nat.le_refl 1)
  have hr : pcReach (fun t => t) 1 ⟨[1], some 1⟩ :=
    Relation.ReflTransGen.tail (Relation.ReflTransGen.single h1) h2
  refine ⟨(priority_ceiling_dispatch (fun t => t) 1 ⟨[1], some 1⟩ 1 hr rfl).1
      1 ?_,
    (priority_ceiling_dispatch (fun t => t) 1 ⟨[1], some 1⟩ 1 hr rfl).2
      2 rfl ?_⟩
  · show (1 : Nat) ≤ 1
    norm_num
  · show (1 : Nat) < 2
    norm_num

/-- C10: the `rtic_hello` init phase prints exactly 11 greeting lines,
one per index 0..10 in ascending order, performs no scheduling and
declares no resources. -/
theorem hello_run_spec :
    helloRun.printed =
      [helloMessage 0, helloMessage 1, helloMessage 2, helloMessage 3,
       helloMessage 4, helloMessage 5, helloMessage 6, helloMessage 7,
       helloMessage 8, helloMessage 9, helloMessage 10]
    ∧ helloRun.printed.length = 11
    ∧ helloRun.initScheduleCalls = []
    ∧ helloRun.resourcesDeclared = [] := by
  refine ⟨rfl, rfl, rfl, rfl⟩

end RticModel
